import Mathlib

/-!
Shallow embedding of the Fractal Geometry Engine of the Popi repository
(`fractal_blockchain/core/mathematics/fractal_math.py`,
`fractal_blockchain/core/addressing.py`,
`fractal_blockchain/core/geometry_validator.py`).

Python floats are modelled as exact rationals (ℚ); the float constant
`math.sqrt(3)` is modelled by the exact rational value of the IEEE-754
double nearest to √3.  Python tuples of ints are modelled as `List ℕ`
(negative path digits are not modelled; all digits produced or consumed
by the embedded functions are non-negative).  Functions that can raise
return `Except`/`Option`; `None` results are `Option.none`.
-/

namespace Popi

/-- Models `CartesianPoint` (a NamedTuple of two floats). -/
structure CartesianPoint where
  x : ℚ
  y : ℚ
deriving DecidableEq, Repr

/-- Models `TriangleVertices = Tuple[CartesianPoint, CartesianPoint, CartesianPoint]`. -/
abbrev TriangleVertices := CartesianPoint × CartesianPoint × CartesianPoint

/-- Models `SIDE_LENGTH = 1000.0`. -/
def SIDE_LENGTH : ℚ := 1000

/-- Models `SQRT_3 = math.sqrt(3)`: the exact value of the IEEE-754 double
nearest to √3 (3900231685776981 · 2⁻⁵¹). -/
def SQRT_3 : ℚ := 3900231685776981 / 2251799813685248

/-- Models `HEIGHT = (SQRT_3 / 2) * SIDE_LENGTH`. -/
def HEIGHT : ℚ := (SQRT_3 / 2) * SIDE_LENGTH

/-- Models `GENESIS_TRIAD_VERTICES`. -/
def GENESIS_TRIAD_VERTICES : TriangleVertices :=
  (⟨0, (2/3) * HEIGHT⟩, ⟨-SIDE_LENGTH / 2, (-1/3) * HEIGHT⟩, ⟨SIDE_LENGTH / 2, (-1/3) * HEIGHT⟩)

/-- Models `get_midpoint`. -/
def get_midpoint (p1 p2 : CartesianPoint) : CartesianPoint :=
  ⟨(p1.x + p2.x) / 2, (p1.y + p2.y) / 2⟩

/-- Models `subdivide_triangle`: 3 child triangles plus the central void triangle. -/
def subdivide_triangle (vertices : TriangleVertices) : List TriangleVertices × TriangleVertices :=
  let pTop := vertices.1
  let pLeftBase := vertices.2.1
  let pRightBase := vertices.2.2
  let mTopLeft := get_midpoint pTop pLeftBase
  let mTopRight := get_midpoint pTop pRightBase
  let mLeftRightBase := get_midpoint pLeftBase pRightBase
  ([(pTop, mTopLeft, mTopRight),
    (mTopLeft, pLeftBase, mLeftRightBase),
    (mTopRight, mLeftRightBase, pRightBase)],
   (mTopLeft, mLeftRightBase, mTopRight))

/-- Models the `FractalCoordinate` NamedTuple carrier (also the carrier of its
subclass `AddressedFractalCoordinate`, which adds no fields). -/
structure FractalCoordinate where
  depth : ℕ
  path : List ℕ
deriving DecidableEq, Repr

/-- The two `ValueError`s the `AddressedFractalCoordinate` constructor can raise. -/
inductive CtorError where
  | invalidElement   -- "Path elements must be 0, 1, 2 (child) or 3 (void)."
  | lengthMismatch   -- "Path length must equal depth."
deriving DecidableEq, Repr

/-- Models construction `FractalCoordinate(depth, path)`: a plain NamedTuple,
whose construction performs no validation and never raises. -/
def pyFractalCoordinate (depth : ℕ) (path : List ℕ) : Except CtorError FractalCoordinate :=
  .ok ⟨depth, path⟩

/-- Models construction `AddressedFractalCoordinate(depth, path)`: the
`__new__` override first rejects any path element outside 0..3, then rejects
`len(path) != depth`. -/
def pyAddressedFractalCoordinate (depth : ℕ) (path : List ℕ) :
    Except CtorError FractalCoordinate :=
  if path.all (fun d => d ≤ 3) then
    if path.length = depth then .ok ⟨depth, path⟩
    else .error .lengthMismatch
  else .error .invalidElement

/-- Models the method `is_void_path`: digit 3 occurs somewhere in the path. -/
def is_void_path (c : FractalCoordinate) : Bool := c.path.contains 3

/-- Models the method `is_solid_path`. -/
def is_solid_path (c : FractalCoordinate) : Bool := ! is_void_path c

/-- Loop of `get_vertices_for_addressed_coord` (geometry_validator.py):
`for i in range(coord.depth)` indexing `coord.path`, modelled by walking the
list with a fuel counter.  The `none` on exhausted path models the guard
`if i >= len(coord.path): return None`; the `none` for a missing child models
the guard `if path_element >= len(children_triangles): return None`. -/
def getVerticesGo : ℕ → List ℕ → TriangleVertices → Option TriangleVertices
  | 0, _, t => some t
  | _ + 1, [], _ => none
  | n + 1, d :: rest, t =>
    let sub := subdivide_triangle t
    if d ≤ 2 then
      match sub.1.get? d with
      | some ct => getVerticesGo n rest ct
      | none => none
    else if d = 3 then getVerticesGo n rest sub.2
    else none

/-- Models `get_vertices_for_addressed_coord` specialized at the default
`initial_triad_vertices = GENESIS_TRIAD_VERTICES`.  (The Python function first
calls `is_valid_addressed_coordinate` and discards the result, a no-op.) -/
def get_vertices_for_addressed_coord (c : FractalCoordinate) : Option TriangleVertices :=
  if c.depth = 0 then some GENESIS_TRIAD_VERTICES
  else getVerticesGo c.depth c.path GENESIS_TRIAD_VERTICES

/-- Loop of `is_valid_addressed_coordinate`: `for i in range(coord.depth)`
with dispatch on the path element.  Child indexing `children_triangles[k]`
cannot fail in Python (the list always has 3 entries), modelled with `getD`;
an exhausted path (Python would raise IndexError, impossible for
constructor-accepted coordinates) is modelled as `false`. -/
def isValidAddrGo : ℕ → List ℕ → TriangleVertices → Bool
  | 0, _, _ => true
  | _ + 1, [], _ => false
  | n + 1, d :: rest, t =>
    let sub := subdivide_triangle t
    if d = 0 then isValidAddrGo n rest (sub.1.getD 0 t)
    else if d = 1 then isValidAddrGo n rest (sub.1.getD 1 t)
    else if d = 2 then isValidAddrGo n rest (sub.1.getD 2 t)
    else if d = 3 then isValidAddrGo n rest sub.2
    else false

/-- Models `is_valid_addressed_coordinate` at the default genesis triad.
(The Python guard `if coord.depth < 0: return False` is vacuous over ℕ.) -/
def is_valid_addressed_coordinate (c : FractalCoordinate) : Bool :=
  isValidAddrGo c.depth c.path GENESIS_TRIAD_VERTICES

/-- Models `is_orphaned`. -/
def is_orphaned (c : FractalCoordinate) : Bool :=
  if c.depth = 0 then false else ! is_valid_addressed_coordinate c

/-- Models `get_neighbors`: all four potential children of the parent path,
minus the coordinate's own last digit, each built through the
`AddressedFractalCoordinate` constructor with `ValueError`s skipped
(`try`/`except` in the Python loop).  Python collects them in a `set` and
returns `list(set)`; the iteration order of that set is modelled as ascending
digit order.  A non-empty depth with an empty path (IndexError in Python on
`coord.path[-1]`, impossible for constructor-accepted coordinates) is
modelled as the empty list. -/
def get_neighbors (c : FractalCoordinate) : List FractalCoordinate :=
  if c.depth = 0 then []
  else
    match c.path.getLast? with
    | none => []
    | some currentChildIdx =>
      (List.range 4).filterMap (fun i =>
        if i = currentChildIdx then none
        else
          match pyAddressedFractalCoordinate c.depth (c.path.dropLast ++ [i]) with
          | .ok co => some co
          | .error _ => none)

/-- The tolerance `1e-9` used throughout the geometric predicates. -/
def TOLERANCE : ℚ := 1 / 10 ^ 9

/-- Models the local helper `get_triangle_area` of `cartesian_to_fractal`:
`0.5 * abs(...)` (determinant method). -/
def get_triangle_area (p1 p2 p3 : CartesianPoint) : ℚ :=
  (1/2) * |p1.x * (p2.y - p3.y) + p2.x * (p3.y - p1.y) + p3.x * (p1.y - p2.y)|

/-- Models the local helper `point_in_triangle` of `cartesian_to_fractal`
(area-sum method with tolerance `1e-9`, returning false on a degenerate
triangle). -/
def point_in_triangle (pt v1 v2 v3 : CartesianPoint) : Bool :=
  let areaTotal := get_triangle_area v1 v2 v3
  if areaTotal < TOLERANCE then false
  else
    let area1 := get_triangle_area pt v1 v2
    let area2 := get_triangle_area pt v2 v3
    let area3 := get_triangle_area pt v3 v1
    decide (|area1 + area2 + area3 - areaTotal| < TOLERANCE)

/-- Membership of a point in a triangle given as a vertex triple. -/
def inTriangle (p : CartesianPoint) (t : TriangleVertices) : Bool :=
  point_in_triangle p t.1 t.2.1 t.2.2

/-- Models the inner `for i, child_v_set in enumerate(children_triangles)`
loop of `cartesian_to_fractal`: the first child containing the point, with
its index. -/
def findContainingChild (p : CartesianPoint) :
    List TriangleVertices → ℕ → Option (ℕ × TriangleVertices)
  | [], _ => none
  | t :: ts, i => if inTriangle p t then some (i, t) else findContainingChild p ts (i + 1)

/-- Models the `for d in range(max_depth)` loop of `cartesian_to_fractal`:
accumulates path elements, entering the first containing solid child, else
the void, and stops early when the point is classified in no sub-region. -/
def cartesianToFractalGo (p : CartesianPoint) : ℕ → TriangleVertices → List ℕ
  | 0, _ => []
  | n + 1, t =>
    let sub := subdivide_triangle t
    match findContainingChild p sub.1 0 with
    | some (i, childT) => i :: cartesianToFractalGo p n childT
    | none =>
      if inTriangle p sub.2 then 3 :: cartesianToFractalGo p n sub.2
      else []

/-- Models `cartesian_to_fractal` at the default genesis triad: `none` when
the point is outside the genesis triangle, otherwise the
`AddressedFractalCoordinate` whose depth is the length of the accumulated
path (that constructor cannot raise here: every accumulated digit is in
0..3 and the length matches by construction). -/
def cartesian_to_fractal (p : CartesianPoint) (maxDepth : ℕ) : Option FractalCoordinate :=
  if inTriangle p GENESIS_TRIAD_VERTICES then
    let pathElements := cartesianToFractalGo p maxDepth GENESIS_TRIAD_VERTICES
    some ⟨pathElements.length, pathElements⟩
  else none

/-- Models `distance_sq`. -/
def distance_sq (p1 p2 : CartesianPoint) : ℚ :=
  (p1.x - p2.x) ^ 2 + (p1.y - p2.y) ^ 2

/-- Models `points_are_close` at the tolerance `1e-9` used by
`is_on_boundary`: squared distance strictly below tolerance². -/
def points_are_close (p1 p2 : CartesianPoint) : Bool :=
  decide (distance_sq p1 p2 < TOLERANCE ^ 2)

/-- Models `is_point_on_line_segment` at tolerance `1e-9`: degenerate-segment
check, collinearity via the 2-D cross product, then the two dot-product
range checks. -/
def is_point_on_line_segment (p a b : CartesianPoint) : Bool :=
  if points_are_close a b then points_are_close p a
  else
    let crossProduct := (p.y - a.y) * (b.x - a.x) - (p.x - a.x) * (b.y - a.y)
    if TOLERANCE < |crossProduct| then false
    else
      let dotPaBa := (p.x - a.x) * (b.x - a.x) + (p.y - a.y) * (b.y - a.y)
      if dotPaBa < -TOLERANCE then false
      else if distance_sq a b + TOLERANCE < dotPaBa then false
      else true

/-- The three corner points of a triangle, in order. -/
def triangleCorners (t : TriangleVertices) : List CartesianPoint := [t.1, t.2.1, t.2.2]

/-- Models the geometric tail of `is_on_boundary` (steps run only once all
the early returns have been passed): resolve the coordinate's triangle
(`none` → false), then the vertex-coincidence check against the genesis
vertices, then the edge-on-genesis-edge check. -/
def boundaryGeometryCheck (c : FractalCoordinate) : Bool :=
  match get_vertices_for_addressed_coord c with
  | none => false
  | some v =>
    let gv := GENESIS_TRIAD_VERTICES
    if (triangleCorners v).any (fun cv => (triangleCorners gv).any (fun gvx => points_are_close cv gvx)) then
      true
    else
      let coordEdges := [(v.1, v.2.1), (v.2.1, v.2.2), (v.2.2, v.1)]
      let genesisEdges := [(gv.1, gv.2.1), (gv.2.1, gv.2.2), (gv.2.2, gv.1)]
      coordEdges.any (fun ce =>
        genesisEdges.any (fun ge =>
          is_point_on_line_segment ce.1 ge.1 ge.2 &&
          is_point_on_line_segment ce.2 ge.1 ge.2 &&
          ! points_are_close ce.1 ce.2))

/-- The "simplistic" uniform-path condition of `is_on_boundary`:
`coord.depth > 0 and all(p == coord.path[0] for p in coord.path)`.  Python's
lazy `all` is true on an empty path; `coord.path[0]` on an empty path (an
IndexError, impossible for constructor-accepted coordinates) is modelled
with `headD`. -/
def uniformPath (path : List ℕ) : Bool :=
  path.all (fun d => d = path.headD 0)

/-- Models `is_on_boundary`, which can return either a bool or the literal
string `"DEBUG_FAILING_CASE_REACHED"` (Python `Union[bool, str]`), in the
exact order of the Python returns.  `max_depth` is an arbitrary Python int,
modelled as ℤ. -/
def is_on_boundary (c : FractalCoordinate) (maxDepth : ℤ) : Bool ⊕ String :=
  if is_solid_path c = false then .inl false
  else if (c.depth : ℤ) < maxDepth then .inl false
  else if c.depth = 0 ∧ maxDepth = 0 then .inl true
  else if 0 < c.depth ∧ uniformPath c.path = true ∧ c.path.headD 0 ≤ 2 then .inl true
  else if c.depth = 1 ∧ c.path = [0] ∧ maxDepth = 0 then .inr ("DEBUG_FAILING_CASE_REACHED")
  else if is_solid_path c = false then .inl false
  else if (c.depth : ℤ) ≠ maxDepth then .inl false
  else if c.depth = 0 then .inl true
  else .inl (boundaryGeometryCheck c)

/-- Fuel-driven decimal printer (structural recursion so that concrete
instances reduce); the fuel is always at least the number of digits. -/
def natReprAux : ℕ → ℕ → List Char
  | 0, _ => []
  | fuel + 1, n =>
    if n < 10 then [Char.ofNat (48 + n)]
    else natReprAux fuel (n / 10) ++ [Char.ofNat (48 + n % 10)]

/-- Decimal representation of a natural number, most significant digit
first; models Python `str(n)` for a non-negative int. -/
def natRepr (n : ℕ) : List Char := natReprAux (n + 1) n

/-- Models `coord_to_string`: the f-string `"d{depth}p{path_str}"` with
`path_str = "".join(map(str, coord.path))`, as a character list. -/
def coord_to_string (c : FractalCoordinate) : List Char :=
  'd' :: (natRepr c.depth ++ 'p' :: (c.path.map natRepr).flatten)

/-- Numeric value of a list of decimal digit characters. -/
def decVal (cs : List Char) : ℕ :=
  cs.foldl (fun a ch => 10 * a + (ch.toNat - 48)) 0

/-- Digit-string parse underlying the model of Python `int`: a non-empty
all-digit string, else failure. -/
def parseNatDigits (cs : List Char) : Option ℕ :=
  if cs.isEmpty then none
  else if cs.all Char.isDigit then some (decVal cs) else none

/-- Models Python `int(s)` on the depth substring: an optional single
leading minus sign followed by decimal digits.  (Surrounding whitespace,
a leading plus sign and underscore separators accepted by the Python
builtin are not modelled.) -/
def pyParseInt (cs : List Char) : Option ℤ :=
  if cs.head? = some '-' then (parseNatDigits cs.tail).map (fun n => -(n : ℤ))
  else (parseNatDigits cs).map (fun n => (n : ℤ))

/-- Models `int(ch)` on a single character of the path substring. -/
def charToDigit (ch : Char) : Option ℕ :=
  if ch.isDigit then some (ch.toNat - 48) else none

/-- `parts[0]` of `s.split("p")`: everything before the first `'p'`. -/
def splitPart0 (s : List Char) : List Char :=
  s.takeWhile (fun ch => ch ≠ 'p')

/-- `parts[1]` of `s.split("p")`: everything between the first and second
`'p'` (given that `'p'` occurs in `s`). -/
def splitPart1 (s : List Char) : List Char :=
  ((s.dropWhile (fun ch => ch ≠ 'p')).tail).takeWhile (fun ch => ch ≠ 'p')

/-- `parts[0][1:]`: the depth substring. -/
def depthStrOf (s : List Char) : List Char := (splitPart0 s).tail

/-- Result of `string_to_coord`: Python's `None` is `malformed`; the
`ValueError` explicitly raised in the `allow_void_paths=False` branch is
`domainError`; a successful decode is `ok`. -/
inductive ParseResult where
  | malformed
  | domainError
  | ok (c : FractalCoordinate)
deriving DecidableEq, Repr

/-- Domain phase of `string_to_coord`, applied once depth and path digits
have been parsed and the length check passed.  With `allow_void_paths` the
`AddressedFractalCoordinate` constructor runs and its `ValueError` is caught
and mapped to `None`; without it, any non-solid digit raises an explicit
`ValueError`, and otherwise a plain `FractalCoordinate` is built. -/
def finishDomain (depth : ℕ) (path : List ℕ) (allowVoidPaths : Bool) : ParseResult :=
  if allowVoidPaths then
    match pyAddressedFractalCoordinate depth path with
    | .ok c => .ok c
    | .error _ => .malformed
  else
    if path.all (fun d => d ≤ 2) then .ok ⟨depth, path⟩
    else .domainError

/-- Models `string_to_coord` on a character list: the `startswith("d")` and
`"p" in s` guards, the split, Python `int` on the depth substring, the
negative-depth check, the empty-path cases, per-character `int` on the path
substring, the length check, and finally the domain phase. -/
def string_to_coord (s : List Char) (allowVoidPaths : Bool) : ParseResult :=
  if s.head? = some 'd' ∧ s.contains 'p' = true then
    match pyParseInt (depthStrOf s) with
    | none => .malformed
    | some depthVal =>
      if depthVal < 0 then .malformed
      else if (splitPart1 s).isEmpty then
        if depthVal = 0 then finishDomain 0 [] allowVoidPaths
        else .malformed
      else
        match (splitPart1 s).mapM charToDigit with
        | none => .malformed
        | some pathVal =>
          if (pathVal.length : ℤ) = depthVal then
            finishDomain depthVal.toNat pathVal allowVoidPaths
          else .malformed
  else .malformed

/-- The `d<depth>p<digits>` grammar, written from the spec: a literal `'d'`,
a non-empty block of decimal digits whose value is the depth, a literal
`'p'`, and a block of decimal digits whose count equals the depth. -/
def SpecGrammar (s : List Char) : Prop :=
  ∃ ds ps : List Char,
    ds ≠ [] ∧ (∀ ch ∈ ds, ch.isDigit = true) ∧ (∀ ch ∈ ps, ch.isDigit = true) ∧
    ps.length = decVal ds ∧ s = 'd' :: (ds ++ 'p' :: ps)

/-- The digit values named by a well-formed string's path block. -/
def pathDigitVals (s : List Char) : Option (List ℕ) :=
  (splitPart1 s).mapM charToDigit

/-- Written from the spec's words for `resolve(coord)` (refinement side of
C1): starting from the Genesis Triangle, fold over the path digits, taking
`subdivide`'s `children[digit]` for a digit in 0..2 and `subdivide`'s void
triangle for digit 3. -/
def resolveSpec (path : List ℕ) : TriangleVertices :=
  path.foldl
    (fun t d => if d = 3 then (subdivide_triangle t).2 else (subdivide_triangle t).1.getD d t)
    GENESIS_TRIAD_VERTICES

/-- Written from the spec's words for the `locate` loop (refinement side of
C3): at each level test membership in `children[0]`, `children[1]`,
`children[2]` in that fixed order and then the void, append the first
matching digit, and stop early when no region matches. -/
def locateDigitsSpec (p : CartesianPoint) : ℕ → TriangleVertices → List ℕ
  | 0, _ => []
  | n + 1, t =>
    let sub := subdivide_triangle t
    let c0 := sub.1.getD 0 t
    let c1 := sub.1.getD 1 t
    let c2 := sub.1.getD 2 t
    if inTriangle p c0 then 0 :: locateDigitsSpec p n c0
    else if inTriangle p c1 then 1 :: locateDigitsSpec p n c1
    else if inTriangle p c2 then 2 :: locateDigitsSpec p n c2
    else if inTriangle p sub.2 then 3 :: locateDigitsSpec p n sub.2
    else []

/-! ### Helper lemmas -/

lemma isDigit_ofNat_add {d : ℕ} (h : d < 10) : (Char.ofNat (48 + d)).isDigit = true := by
  interval_cases d <;> decide

lemma toNat_ofNat_add {d : ℕ} (h : d < 10) : (Char.ofNat (48 + d)).toNat = 48 + d := by
  interval_cases d <;> decide

lemma ne_p_of_isDigit {c : Char} (h : c.isDigit = true) : c ≠ 'p' := by
  intro hc; subst hc; simp at h

lemma ne_minus_of_isDigit {c : Char} (h : c.isDigit = true) : c ≠ '-' := by
  intro hc; subst hc; simp at h

lemma takeWhile_prefix_append (f : Char → Bool) :
    ∀ (xs : List Char) (y : Char) (ys : List Char), (∀ x ∈ xs, f x = true) → f y = false →
      (xs ++ y :: ys).takeWhile f = xs := by
  intro xs y ys hall hy
  induction xs with
  | nil => simp [List.takeWhile_cons_of_neg, hy]
  | cons a as ih =>
    have ha : f a = true := hall a (by simp)
    simp only [List.cons_append, List.takeWhile_cons_of_pos ha]
    rw [ih (fun x hx => hall x (by simp [hx]))]

lemma dropWhile_prefix_append (f : Char → Bool) :
    ∀ (xs : List Char) (y : Char) (ys : List Char), (∀ x ∈ xs, f x = true) → f y = false →
      (xs ++ y :: ys).dropWhile f = y :: ys := by
  intro xs y ys hall hy
  induction xs with
  | nil => simp [List.dropWhile_cons_of_neg, hy]
  | cons a as ih =>
    have ha : f a = true := hall a (by simp)
    simp only [List.cons_append, List.dropWhile_cons_of_pos ha]
    exact ih (fun x hx => hall x (by simp [hx]))

lemma takeWhile_all_ne (f : Char → Bool) :
    ∀ (xs : List Char), (∀ x ∈ xs, f x = true) → xs.takeWhile f = xs := by
  intro xs hall
  induction xs with
  | nil => rfl
  | cons a as ih =>
    have ha : f a = true := hall a (by simp)
    simp only [List.takeWhile_cons_of_pos ha]
    rw [ih (fun x hx => hall x (by simp [hx]))]

lemma decVal_append_singleton (xs : List Char) (c : Char) :
    decVal (xs ++ [c]) = 10 * decVal xs + (c.toNat - 48) := by
  simp [decVal, List.foldl_append]

lemma natReprAux_ne_nil (fuel n : ℕ) : natReprAux (fuel + 1) n ≠ [] := by
  unfold natReprAux
  split <;> simp

lemma natReprAux_digits : ∀ (fuel n : ℕ), n < fuel → ∀ c ∈ natReprAux fuel n, c.isDigit = true := by
  intro fuel
  induction fuel with
  | zero => omega
  | succ fuel ih =>
    intro n hn c hc
    unfold natReprAux at hc
    split at hc
    · rcases List.mem_singleton.mp hc with rfl
      exact isDigit_ofNat_add (by omega)
    · rcases List.mem_append.mp hc with h | h
      · exact ih (n / 10) (by omega) c h
      · rcases List.mem_singleton.mp h with rfl
        exact isDigit_ofNat_add (by omega)

lemma decVal_natReprAux : ∀ (fuel n : ℕ), n < fuel → decVal (natReprAux fuel n) = n := by
  intro fuel
  induction fuel with
  | zero => omega
  | succ fuel ih =>
    intro n hn
    unfold natReprAux
    split
    · simp [decVal, toNat_ofNat_add (by omega : n < 10)]
    · rw [decVal_append_singleton, ih (n / 10) (by omega),
        toNat_ofNat_add (by omega : n % 10 < 10)]
      omega

lemma natRepr_ne_nil (n : ℕ) : natRepr n ≠ [] := natReprAux_ne_nil n n

lemma natRepr_digits (n : ℕ) : ∀ c ∈ natRepr n, c.isDigit = true :=
  natReprAux_digits (n + 1) n (by omega)

lemma decVal_natRepr (n : ℕ) : decVal (natRepr n) = n :=
  decVal_natReprAux (n + 1) n (by omega)

lemma natRepr_of_lt_ten {d : ℕ} (h : d < 10) : natRepr d = [Char.ofNat (48 + d)] := by
  unfold natRepr natReprAux
  rw [if_pos h]

lemma charToDigit_ofNat_add {d : ℕ} (h : d < 10) : charToDigit (Char.ofNat (48 + d)) = some d := by
  interval_cases d <;> decide

lemma flatten_map_natRepr {p : List ℕ} (h : ∀ d ∈ p, d ≤ 3) :
    (p.map natRepr).flatten = p.map (fun d => Char.ofNat (48 + d)) := by
  induction p with
  | nil => rfl
  | cons a as ih =>
    have ha : a ≤ 3 := h a (by simp)
    simp only [List.map_cons, List.flatten_cons, natRepr_of_lt_ten (by omega : a < 10)]
    rw [ih (fun d hd => h d (by simp [hd]))]
    rfl

lemma mapM_charToDigit_of_digits : ∀ (ps : List Char), (∀ c ∈ ps, c.isDigit = true) →
    ps.mapM charToDigit = some (ps.map (fun c => c.toNat - 48)) := by
  intro ps hall
  induction ps with
  | nil => rfl
  | cons a as ih =>
    have ha : a.isDigit = true := hall a (by simp)
    rw [List.mapM_cons, ih (fun c hc => hall c (by simp [hc]))]
    simp [charToDigit, ha]

lemma parseNatDigits_of_digits {cs : List Char} (h1 : cs ≠ []) (h2 : ∀ c ∈ cs, c.isDigit = true) :
    parseNatDigits cs = some (decVal cs) := by
  unfold parseNatDigits
  rw [if_neg (by simpa using h1), if_pos (List.all_eq_true.mpr (fun c hc => h2 c hc))]

lemma pyParseInt_of_digits {cs : List Char} (h1 : cs ≠ []) (h2 : ∀ c ∈ cs, c.isDigit = true) :
    pyParseInt cs = some ((decVal cs : ℤ)) := by
  unfold pyParseInt
  rw [if_neg, parseNatDigits_of_digits h1 h2]
  · rfl
  · cases cs with
    | nil => simp at h1
    | cons a as =>
      have := ne_minus_of_isDigit (h2 a (by simp))
      simp [this]

lemma uniformPath_iff (p : List ℕ) : uniformPath p = true ↔ ∀ d ∈ p, d = p.headD 0 := by
  simp [uniformPath]

lemma is_solid_path_false_iff (c : FractalCoordinate) :
    is_solid_path c = false ↔ 3 ∈ c.path := by
  simp [is_solid_path, is_void_path, List.contains]

lemma splitPart0_decomp (ds tail : List Char) (h2 : ∀ c ∈ ds, c.isDigit = true) :
    splitPart0 ('d' :: (ds ++ 'p' :: tail)) = 'd' :: ds := by
  unfold splitPart0
  rw [List.takeWhile_cons_of_pos (by decide)]
  rw [takeWhile_prefix_append _ ds 'p' tail
    (fun x hx => by simpa using ne_p_of_isDigit (h2 x hx)) (by simp)]

lemma splitPart1_decomp (ds ps : List Char) (h2 : ∀ c ∈ ds, c.isDigit = true)
    (h3 : ∀ c ∈ ps, c.isDigit = true) :
    splitPart1 ('d' :: (ds ++ 'p' :: ps)) = ps := by
  unfold splitPart1
  rw [List.dropWhile_cons_of_pos (by decide)]
  rw [dropWhile_prefix_append _ ds 'p' ps
    (fun x hx => by simpa using ne_p_of_isDigit (h2 x hx)) (by simp)]
  simp only [List.tail_cons]
  exact takeWhile_all_ne _ ps (fun x hx => by simpa using ne_p_of_isDigit (h3 x hx))

lemma string_to_coord_decomp (ds ps : List Char) (av : Bool)
    (h1 : ds ≠ []) (h2 : ∀ c ∈ ds, c.isDigit = true) (h3 : ∀ c ∈ ps, c.isDigit = true)
    (hlen : ps.length = decVal ds) :
    string_to_coord ('d' :: (ds ++ 'p' :: ps)) av =
      finishDomain (decVal ds) (ps.map (fun c => c.toNat - 48)) av := by
  have hdepth : depthStrOf ('d' :: (ds ++ 'p' :: ps)) = ds := by
    unfold depthStrOf
    rw [splitPart0_decomp ds ps h2, List.tail_cons]
  have hcont : ('d' :: (ds ++ 'p' :: ps)).contains 'p' = true := by
    simp [List.contains, List.elem_eq_mem]
  unfold string_to_coord
  rw [if_pos ⟨rfl, hcont⟩, hdepth, pyParseInt_of_digits h1 h2]
  rw [splitPart1_decomp ds ps h2 h3]
  dsimp only
  rw [if_neg (by omega)]
  by_cases hps : ps = []
  · subst hps
    have h0 : decVal ds = 0 := by simpa using hlen.symm
    simp [h0]
  · rw [if_neg (by simpa using hps), mapM_charToDigit_of_digits ps h3]
    dsimp only
    simp [hlen]

/-- The four regions produced by one subdivision: the three children and the
void. -/
def fourRegions (v : TriangleVertices) : List TriangleVertices :=
  (subdivide_triangle v).1 ++ [(subdivide_triangle v).2]

/-- In how many of the four regions of a subdivision the point `x` occurs as
a corner vertex. -/
def countRegionsContaining (v : TriangleVertices) (x : CartesianPoint) : ℕ :=
  (fourRegions v).countP (fun t => decide (x = t.1 ∨ x = t.2.1 ∨ x = t.2.2))

lemma headD_mem {l : List ℕ} (h : l ≠ []) (d : ℕ) : l.headD d ∈ l := by
  cases l with
  | nil => exact absurd rfl h
  | cons a as => simp

lemma getVerticesGo_eq_foldl : ∀ (p : List ℕ) (t : TriangleVertices), (∀ d ∈ p, d ≤ 3) →
    getVerticesGo p.length p t =
      some (p.foldl (fun t d => if d = 3 then (subdivide_triangle t).2
                                else (subdivide_triangle t).1.getD d t) t) := by
  intro p
  induction p with
  | nil => intro t _; rfl
  | cons d rest ih =>
    intro t hall
    have hd : d ≤ 3 := hall d (by simp)
    have hrest : ∀ x ∈ rest, x ≤ 3 := fun x hx => hall x (by simp [hx])
    interval_cases d <;>
      simpa [getVerticesGo, subdivide_triangle] using ih _ hrest

/-- C1: resolving a structurally valid addressed coordinate (digits in 0..3,
`len(path) == depth`) starts from the Genesis Triangle and folds over the
path digits, taking `subdivide`'s child for digits 0..2 and `subdivide`'s
void for digit 3; the depth-0 coordinate resolves to the Genesis Triangle
(the fold over the empty path), and the function always returns `some`
triangle for such coordinates. -/
theorem c1_resolve_follows_subdivision (depth : ℕ) (path : List ℕ)
    (hlen : path.length = depth) (hdom : ∀ d ∈ path, d ≤ 3) :
    get_vertices_for_addressed_coord ⟨depth, path⟩ = some (resolveSpec path) := by
  subst hlen
  unfold get_vertices_for_addressed_coord resolveSpec
  dsimp only
  by_cases h0 : path.length = 0
  · rcases List.length_eq_zero.mp h0 with rfl
    rfl
  · rw [if_neg h0]
    exact getVerticesGo_eq_foldl path _ hdom

/-- Witness for C1 at the concrete coordinate of depth 2 with path (0,3). -/
theorem c1_resolve_follows_subdivision_witness :
    get_vertices_for_addressed_coord ⟨2, [0, 3]⟩ = some (resolveSpec [0, 3]) :=
  c1_resolve_follows_subdivision 2 [0, 3] (by decide) (by decide)

lemma isValidAddrGo_all : ∀ (p : List ℕ) (t : TriangleVertices), (∀ d ∈ p, d ≤ 3) →
    isValidAddrGo p.length p t = true := by
  intro p
  induction p with
  | nil => intro t _; rfl
  | cons d rest ih =>
    intro t hall
    have hd : d ≤ 3 := hall d (by simp)
    have hrest : ∀ x ∈ rest, x ≤ 3 := fun x hx => hall x (by simp [hx])
    interval_cases d <;>
      simpa [isValidAddrGo, subdivide_triangle] using ih _ hrest

/-- C10: every constructor-accepted `AddressedFractalCoordinate` (digits in
0..3 and `len(path) == depth`) passes `is_valid_addressed_coordinate`, and
consequently `is_orphaned` is false for every such coordinate. -/
theorem c10_constructed_coords_always_valid (c : FractalCoordinate)
    (hlen : c.path.length = c.depth) (hdom : ∀ d ∈ c.path, d ≤ 3) :
    is_valid_addressed_coordinate c = true ∧ is_orphaned c = false := by
  have hv : is_valid_addressed_coordinate c = true := by
    unfold is_valid_addressed_coordinate
    rw [← hlen]
    exact isValidAddrGo_all c.path GENESIS_TRIAD_VERTICES hdom
  refine ⟨hv, ?_⟩
  unfold is_orphaned
  split
  · rfl
  · rw [hv]; rfl

/-- Witness for C10 at the concrete void-path coordinate of depth 2, path (0,3). -/
theorem c10_constructed_coords_always_valid_witness :
    is_valid_addressed_coordinate ⟨2, [0, 3]⟩ = true ∧ is_orphaned ⟨2, [0, 3]⟩ = false :=
  c10_constructed_coords_always_valid ⟨2, [0, 3]⟩ (by decide) (by decide)

/-- C5 (amended): the `AddressedFractalCoordinate` constructor rejects, at
construction time, any path with a digit outside 0..3 or with
`len(path) != depth`, and accepts exactly the conforming inputs, unchanged
(no truncation or clamping); the plain `FractalCoordinate` constructor
(solid kind) performs no validation at all and accepts any input unchanged. -/
theorem c5_construction_validation (depth : ℕ) (path : List ℕ) :
    ((∃ d ∈ path, 3 < d) ∨ path.length ≠ depth →
        ∃ e, pyAddressedFractalCoordinate depth path = .error e)
    ∧ ((∀ d ∈ path, d ≤ 3) → path.length = depth →
        pyAddressedFractalCoordinate depth path = .ok ⟨depth, path⟩)
    ∧ pyFractalCoordinate depth path = .ok ⟨depth, path⟩ := by
  refine ⟨?_, ?_, rfl⟩
  · intro h
    unfold pyAddressedFractalCoordinate
    by_cases hall : path.all (fun d => d ≤ 3) = true
    · have hlen : path.length ≠ depth := by
        rcases h with h | h
        · rcases h with ⟨d, hd, hgt⟩
          have := List.all_eq_true.mp hall d hd
          simp at this
          omega
        · exact h
      rw [if_pos hall, if_neg hlen]
      exact ⟨.lengthMismatch, rfl⟩
    · rw [if_neg hall]
      exact ⟨.invalidElement, rfl⟩
  · intro hdom hlen
    unfold pyAddressedFractalCoordinate
    rw [if_pos (List.all_eq_true.mpr (fun d hd => by simpa using hdom d hd)), if_pos hlen]

/-- Counterexample to C5 as stated: constructing the solid kind
(`FractalCoordinate`) with digit 4 does not raise — it succeeds and returns
the coordinate unchanged. -/
theorem c5_construction_validation_counterexample :
    pyFractalCoordinate 1 [4] = .ok ⟨1, [4]⟩ := rfl

/-- Witness for C5: digit 4 makes the addressed constructor fail, a
conforming input is returned unchanged, and the solid constructor never fails. -/
theorem c5_construction_validation_witness :
    (∃ e, pyAddressedFractalCoordinate 1 [4] = .error e)
    ∧ pyAddressedFractalCoordinate 2 [0, 3] = .ok ⟨2, [0, 3]⟩ := by
  refine ⟨(c5_construction_validation 1 [4]).1 (Or.inl (by decide)), ?_⟩
  exact (c5_construction_validation 2 [0, 3]).2.1 (by decide) (by decide)

/-- C9: `is_on_boundary` never returns the debug string
`"DEBUG_FAILING_CASE_REACHED"`: the branch guarded by depth 1, path (0,)
and max_depth 0 is unreachable because the earlier uniform-path shortcut
already returns true on that input.  (Proved for all inputs, in particular
for every valid addressed coordinate and every integer max_depth.) -/
theorem c9_debug_branch_unreachable (c : FractalCoordinate) (m : ℤ) (s : String) :
    is_on_boundary c m ≠ Sum.inr s := by
  unfold is_on_boundary
  split_ifs with h1 h2 h3 h4 h5 h6 h7 <;> try simp
  obtain ⟨hd, hp, hm⟩ := h5
  refine absurd ⟨by omega, ?_, ?_⟩ h4
  · rw [hp]; decide
  · rw [hp]; decide

/-- C6 (amended): for a valid addressed coordinate and non-negative
`max_depth`, `is_on_boundary` returns false when the coordinate is a void
path, or when `depth < max_depth`, or when `depth != max_depth` and the path
digits are not all equal; but when `depth > max_depth` and all (solid) path
digits are equal it returns true despite the depth mismatch; and it returns
true for the Genesis coordinate when `max_depth == 0`. -/
theorem c6_boundary_base_cases (c : FractalCoordinate) (m : ℤ)
    (hlen : c.path.length = c.depth) (hdom : ∀ d ∈ c.path, d ≤ 3) (hm : 0 ≤ m) :
    (3 ∈ c.path → is_on_boundary c m = .inl false)
    ∧ ((c.depth : ℤ) < m → is_on_boundary c m = .inl false)
    ∧ (c.depth = 0 → m = 0 → is_on_boundary c m = .inl true)
    ∧ (3 ∉ c.path → (c.depth : ℤ) ≠ m →
        ¬(0 < c.depth ∧ ∀ d ∈ c.path, d = c.path.headD 0) →
        is_on_boundary c m = .inl false)
    ∧ (3 ∉ c.path → m < (c.depth : ℤ) → (∀ d ∈ c.path, d = c.path.headD 0) →
        is_on_boundary c m = .inl true) := by
  refine ⟨?_, ?_, ?_, ?_, ?_⟩
  · intro h3
    unfold is_on_boundary
    rw [if_pos ((is_solid_path_false_iff c).mpr h3)]
  · intro hlt
    unfold is_on_boundary
    by_cases hsolid : is_solid_path c = false
    · rw [if_pos hsolid]
    · rw [if_neg hsolid, if_pos hlt]
  · intro hd hm0
    have hnil : c.path = [] := by
      rw [hd] at hlen
      exact List.length_eq_zero.mp hlen
    unfold is_on_boundary
    rw [if_neg (by rw [is_solid_path_false_iff, hnil]; simp)]
    rw [if_neg (by omega), if_pos ⟨hd, hm0⟩]
  · intro h3 hne hnu
    have hsolid : ¬ is_solid_path c = false := by
      rw [is_solid_path_false_iff]; exact h3
    unfold is_on_boundary
    rw [if_neg hsolid]
    by_cases hlt : (c.depth : ℤ) < m
    · rw [if_pos hlt]
    · rw [if_neg hlt]
      rw [if_neg (by rintro ⟨a, b⟩; omega)]
      rw [if_neg (fun hcon => hnu ⟨hcon.1, (uniformPath_iff _).mp hcon.2.1⟩)]
      rw [if_neg (by
        rintro ⟨a, b, c0⟩
        refine hnu ⟨by omega, ?_⟩
        rw [b]; decide)]
      rw [if_neg hsolid, if_pos hne]
  · intro h3 hml hall
    have hdp : 0 < c.depth := by omega
    have hnil : c.path ≠ [] := by
      intro hcon
      rw [hcon] at hlen
      simp at hlen
      omega
    have hhead : c.path.headD 0 ≤ 2 := by
      have hmem := headD_mem hnil 0
      have h1 := hdom _ hmem
      have h2 : c.path.headD 0 ≠ 3 := fun hcon => h3 (hcon ▸ hmem)
      omega
    have hsolid : ¬ is_solid_path c = false := by
      rw [is_solid_path_false_iff]; exact h3
    unfold is_on_boundary
    rw [if_neg hsolid, if_neg (by omega), if_neg (by rintro ⟨a, b⟩; omega)]
    rw [if_pos ⟨hdp, (uniformPath_iff _).mpr hall, hhead⟩]

/-- Counterexample to C6 as stated: the solid coordinate of depth 2 with
path (0,0) has depth different from `max_depth = 1`, yet `is_on_boundary`
returns true for it (the uniform-path shortcut fires before the depth
check). -/
theorem c6_boundary_base_cases_counterexample :
    is_on_boundary ⟨2, [0, 0]⟩ 1 = .inl true ∧ (2 : ℤ) ≠ 1 :=
  ⟨by decide, by decide⟩

/-- Witness for C6 at the concrete void coordinate of depth 1, path (3). -/
theorem c6_boundary_base_cases_witness :
    is_on_boundary ⟨1, [3]⟩ 1 = .inl false :=
  (c6_boundary_base_cases ⟨1, [3]⟩ 1 (by decide) (by decide) (by decide)).1 (by decide)

lemma append_singleton_inj {init : List ℕ} {i j : ℕ} (h : init ++ [i] = init ++ [j]) :
    i = j := by
  simpa using h

lemma mem_neighbors_form (dep : ℕ) (init : List ℕ) (last : ℕ) (c' : FractalCoordinate) :
    c' ∈ ((List.range 4).filterMap (fun i => if i = last then none
        else some (⟨dep, init ++ [i]⟩ : FractalCoordinate))) ↔
      ((∃ i ≤ 3, c' = ⟨dep, init ++ [i]⟩) ∧ c' ≠ ⟨dep, init ++ [last]⟩) := by
  rw [List.mem_filterMap]
  constructor
  · rintro ⟨i, hir, hfi⟩
    have hi4 : i < 4 := List.mem_range.mp hir
    by_cases h : i = last
    · rw [if_pos h] at hfi
      exact absurd hfi (by simp)
    · rw [if_neg h] at hfi
      obtain rfl := Option.some.inj hfi
      refine ⟨⟨i, by omega, rfl⟩, ?_⟩
      simp only [ne_eq, FractalCoordinate.mk.injEq, true_and]
      exact fun hp => h (append_singleton_inj hp)
  · rintro ⟨⟨i, hi, rfl⟩, hne⟩
    refine ⟨i, List.mem_range.mpr (by omega), ?_⟩
    rw [if_neg (fun hcon => hne (by rw [hcon]))]

lemma length_neighbors_form (dep : ℕ) (init : List ℕ) (last : ℕ) (hlast : last ≤ 3) :
    ((List.range 4).filterMap (fun i => if i = last then none
        else some (⟨dep, init ++ [i]⟩ : FractalCoordinate))).length = 3 := by
  rw [show (List.range 4) = [0, 1, 2, 3] from by decide]
  interval_cases last <;> simp [List.filterMap_cons]

/-- C8: `neighbors` of the Genesis coordinate is empty, and for any valid
coordinate of positive depth it returns exactly the three other coordinates
of the same depth sharing the immediate parent, ranging over the full digit
domain 0..3 minus the coordinate itself. -/
theorem c8_neighbors_are_parent_siblings (c : FractalCoordinate)
    (hlen : c.path.length = c.depth) (hdom : ∀ d ∈ c.path, d ≤ 3) :
    (c.depth = 0 → get_neighbors c = [])
    ∧ (0 < c.depth →
        (get_neighbors c).length = 3
        ∧ ∀ c' : FractalCoordinate,
            c' ∈ get_neighbors c ↔
              ((∃ i ≤ 3, c' = ⟨c.depth, c.path.dropLast ++ [i]⟩) ∧ c' ≠ c)) := by
  rcases c with ⟨dep, path⟩
  dsimp only at hlen hdom ⊢
  constructor
  · intro h0
    unfold get_neighbors
    rw [if_pos h0]
  · intro hpos
    have hnil : path ≠ [] := by
      intro hcon; rw [hcon] at hlen; simp at hlen; omega
    obtain ⟨init, last, hpath⟩ : ∃ init last, path = init ++ [last] :=
      ⟨path.dropLast, path.getLast hnil, (List.dropLast_append_getLast hnil).symm⟩
    subst hpath
    have hlast3 : last ≤ 3 := hdom last (by simp)
    have hok : ∀ i, i ≤ 3 →
        pyAddressedFractalCoordinate dep (init ++ [i]) = .ok ⟨dep, init ++ [i]⟩ := by
      intro i hi
      have hall : (init ++ [i]).all (fun d => d ≤ 3) = true := by
        refine List.all_eq_true.mpr (fun d hd => ?_)
        rcases List.mem_append.mp hd with h | h
        · simpa using hdom d (List.mem_append.mpr (Or.inl h))
        · rcases List.mem_singleton.mp h with rfl
          simpa using hi
      have hlen2 : (init ++ [i]).length = dep := by
        simp only [List.length_append, List.length_cons, List.length_nil] at hlen ⊢
        omega
      unfold pyAddressedFractalCoordinate
      rw [if_pos hall, if_pos hlen2]
    have hval : get_neighbors ⟨dep, init ++ [last]⟩ =
        (List.range 4).filterMap (fun i => if i = last then none
          else some (⟨dep, init ++ [i]⟩ : FractalCoordinate)) := by
      unfold get_neighbors
      rw [if_neg (show ¬ dep = 0 by omega)]
      dsimp only
      rw [List.getLast?_concat]
      simp only [List.dropLast_concat]
      refine List.filterMap_congr (fun i hir => ?_)
      have hi4 : i < 4 := List.mem_range.mp hir
      by_cases h : i = last
      · rw [if_pos h, if_pos h]
      · rw [if_neg h, if_neg h, hok i (by omega)]
    simp only [List.dropLast_concat]
    rw [hval]
    exact ⟨length_neighbors_form dep init last hlast3,
      fun c' => mem_neighbors_form dep init last c'⟩

/-- Witness for C8 at the depth-1 coordinate with path (0): exactly the
siblings with digits 1, 2, 3. -/
theorem c8_neighbors_are_parent_siblings_witness :
    (get_neighbors ⟨1, [0]⟩).length = 3 ∧
      (⟨1, [1]⟩ : FractalCoordinate) ∈ get_neighbors ⟨1, [0]⟩ := by
  have h := (c8_neighbors_are_parent_siblings ⟨1, [0]⟩ (by decide) (by decide)).2 (by decide)
  refine ⟨h.1, (h.2 ⟨1, [1]⟩).mpr ⟨⟨1, by decide, by decide⟩, by decide⟩⟩

lemma subdivide_triangle_eq (v : TriangleVertices) :
    subdivide_triangle v =
      ([(v.1, get_midpoint v.1 v.2.1, get_midpoint v.1 v.2.2),
        (get_midpoint v.1 v.2.1, v.2.1, get_midpoint v.2.1 v.2.2),
        (get_midpoint v.1 v.2.2, get_midpoint v.2.1 v.2.2, v.2.2)],
       (get_midpoint v.1 v.2.1, get_midpoint v.2.1 v.2.2, get_midpoint v.1 v.2.2)) := rfl

lemma getD_three_zero {α : Type} (a b c x : α) : [a, b, c].getD 0 x = a := rfl

lemma getD_three_one {α : Type} (a b c x : α) : [a, b, c].getD 1 x = b := rfl

lemma getD_three_two {α : Type} (a b c x : α) : [a, b, c].getD 2 x = c := rfl

lemma findContainingChild_three (p : CartesianPoint) (a b c : TriangleVertices) (i : ℕ) :
    findContainingChild p [a, b, c] i =
      if inTriangle p a then some (i, a)
      else if inTriangle p b then some (i + 1, b)
      else if inTriangle p c then some (i + 2, c) else none := by
  simp [findContainingChild]

lemma get_midpoint_self (p : CartesianPoint) : get_midpoint p p = p := by
  cases p with
  | mk x y =>
    simp only [get_midpoint, CartesianPoint.mk.injEq]
    constructor <;> ring

/-- C2: `subdivide` returns exactly the children `(v0,m01,m02)`,
`(m01,v1,m12)`, `(m02,m12,v2)` and the void `(m01,m12,m02)` built from the
three edge midpoints, and the points shared as corner vertices by at least
two of the four regions are exactly the three edge midpoints. -/
theorem c2_subdivide_children_and_shared_midpoints (v : TriangleVertices) :
    subdivide_triangle v =
      ([(v.1, get_midpoint v.1 v.2.1, get_midpoint v.1 v.2.2),
        (get_midpoint v.1 v.2.1, v.2.1, get_midpoint v.2.1 v.2.2),
        (get_midpoint v.1 v.2.2, get_midpoint v.2.1 v.2.2, v.2.2)],
       (get_midpoint v.1 v.2.1, get_midpoint v.2.1 v.2.2, get_midpoint v.1 v.2.2))
    ∧ ∀ x : CartesianPoint,
        2 ≤ countRegionsContaining v x ↔
          (x = get_midpoint v.1 v.2.1 ∨ x = get_midpoint v.1 v.2.2 ∨
            x = get_midpoint v.2.1 v.2.2) := by
  refine ⟨rfl, fun x => ?_⟩
  constructor
  · intro h
    by_contra hx
    push_neg at hx
    obtain ⟨h01, h02, h12⟩ := hx
    have hv01 : x = v.1 → x = v.2.1 → False := by
      intro a b
      apply h01
      rw [← a, ← b, get_midpoint_self]
    have hv02 : x = v.1 → x = v.2.2 → False := by
      intro a b
      apply h02
      rw [← a, ← b, get_midpoint_self]
    have hv12 : x = v.2.1 → x = v.2.2 → False := by
      intro a b
      apply h12
      rw [← a, ← b, get_midpoint_self]
    have c0 : (x = v.1 ∨ x = get_midpoint v.1 v.2.1 ∨ x = get_midpoint v.1 v.2.2) ↔
        x = v.1 :=
      ⟨fun hc => by rcases hc with hc | hc | hc
                    exacts [hc, absurd hc h01, absurd hc h02],
       fun hc => Or.inl hc⟩
    have c1 : (x = get_midpoint v.1 v.2.1 ∨ x = v.2.1 ∨ x = get_midpoint v.2.1 v.2.2) ↔
        x = v.2.1 :=
      ⟨fun hc => by rcases hc with hc | hc | hc
                    exacts [absurd hc h01, hc, absurd hc h12],
       fun hc => Or.inr (Or.inl hc)⟩
    have c2 : (x = get_midpoint v.1 v.2.2 ∨ x = get_midpoint v.2.1 v.2.2 ∨ x = v.2.2) ↔
        x = v.2.2 :=
      ⟨fun hc => by rcases hc with hc | hc | hc
                    exacts [absurd hc h02, absurd hc h12, hc],
       fun hc => Or.inr (Or.inr hc)⟩
    have cV : (x = get_midpoint v.1 v.2.1 ∨ x = get_midpoint v.2.1 v.2.2 ∨
        x = get_midpoint v.1 v.2.2) ↔ False :=
      iff_false_intro (by rintro (hc | hc | hc)
                          exacts [h01 hc, h12 hc, h02 hc])
    simp only [countRegionsContaining, fourRegions, subdivide_triangle, List.cons_append,
      List.nil_append, List.countP_cons, List.countP_nil, decide_eq_true_eq] at h
    simp only [c0, c1, c2, cV, if_false] at h
    split_ifs at h <;>
      first
        | omega
        | exact hv12 ‹x = v.2.1› ‹x = v.2.2›
        | exact hv02 ‹x = v.1› ‹x = v.2.2›
        | exact hv01 ‹x = v.1› ‹x = v.2.1›
  · intro hx
    simp only [countRegionsContaining, fourRegions, subdivide_triangle, List.cons_append,
      List.nil_append, List.countP_cons, List.countP_nil, decide_eq_true_eq]
    rcases hx with rfl | rfl | rfl <;> split_ifs <;> first | omega | simp_all

/-- Witness for C2: the midpoint of the first genesis edge is shared by at
least two regions of the genesis subdivision. -/
theorem c2_subdivide_children_and_shared_midpoints_witness :
    2 ≤ countRegionsContaining GENESIS_TRIAD_VERTICES
        (get_midpoint GENESIS_TRIAD_VERTICES.1 GENESIS_TRIAD_VERTICES.2.1) :=
  ((c2_subdivide_children_and_shared_midpoints GENESIS_TRIAD_VERTICES).2 _).mpr (Or.inl rfl)

lemma cartesianToFractalGo_eq_spec (p : CartesianPoint) :
    ∀ (n : ℕ) (t : TriangleVertices),
      cartesianToFractalGo p n t = locateDigitsSpec p n t := by
  intro n
  induction n with
  | zero => intro t; rfl
  | succ n ih =>
    intro t
    simp only [cartesianToFractalGo, locateDigitsSpec, subdivide_triangle_eq,
      findContainingChild_three, getD_three_zero, getD_three_one, getD_three_two]
    split_ifs <;> simp [ih]

/-- C3: `cartesian_to_fractal` returns `none` exactly when the point is not
in the Genesis Triangle; otherwise it returns the coordinate whose digits
are produced level by level by testing `children[0]`, `children[1]`,
`children[2]` in that fixed order and then the void, appending the first
matching digit and stopping early when no region matches (so a point on a
shared edge is assigned to the lower-indexed child), with depth equal to
the number of digits accumulated. -/
theorem c3_locate_first_match_order (p : CartesianPoint) (maxDepth : ℕ) :
    (inTriangle p GENESIS_TRIAD_VERTICES = false → cartesian_to_fractal p maxDepth = none)
    ∧ (inTriangle p GENESIS_TRIAD_VERTICES = true →
        cartesian_to_fractal p maxDepth =
          some ⟨(locateDigitsSpec p maxDepth GENESIS_TRIAD_VERTICES).length,
                locateDigitsSpec p maxDepth GENESIS_TRIAD_VERTICES⟩) := by
  constructor
  · intro h
    unfold cartesian_to_fractal inTriangle at *
    rw [if_neg (by simp [h])]
  · intro h
    unfold cartesian_to_fractal inTriangle at *
    rw [if_pos h]
    dsimp only
    rw [cartesianToFractalGo_eq_spec]

/-- Witness for C3 at the concrete point (0, 10⁶), which lies outside the
Genesis Triangle. -/
theorem c3_locate_first_match_order_witness :
    inTriangle ⟨0, 1000000⟩ GENESIS_TRIAD_VERTICES = false ∧
      cartesian_to_fractal ⟨0, 1000000⟩ 3 = none := by
  have h : inTriangle ⟨0, 1000000⟩ GENESIS_TRIAD_VERTICES = false := by
    simp only [inTriangle, point_in_triangle, get_triangle_area, GENESIS_TRIAD_VERTICES,
      TOLERANCE, HEIGHT, SQRT_3, SIDE_LENGTH, decide_eq_false_iff_not, not_lt]
    norm_num [abs_of_nonneg]
  exact ⟨h, (c3_locate_first_match_order ⟨0, 1000000⟩ 3).1 h⟩

/-- C4: decoding the encoding (with void paths allowed) is the identity on
every valid coordinate: digits in 0..3 and `len(path) == depth`. -/
theorem c4_from_string_to_string_round_trip (depth : ℕ) (path : List ℕ)
    (hlen : path.length = depth) (hdom : ∀ d ∈ path, d ≤ 3) :
    string_to_coord (coord_to_string ⟨depth, path⟩) true = .ok ⟨depth, path⟩ := by
  have hts : coord_to_string ⟨depth, path⟩ =
      'd' :: (natRepr depth ++ 'p' :: path.map (fun d => Char.ofNat (48 + d))) := by
    unfold coord_to_string
    dsimp only
    rw [flatten_map_natRepr hdom]
  have h3 : ∀ c ∈ path.map (fun d => Char.ofNat (48 + d)), c.isDigit = true := by
    intro c hc
    rcases List.mem_map.mp hc with ⟨d, hd, rfl⟩
    exact isDigit_ofNat_add (by have := hdom d hd; omega)
  have hlen2 : (path.map (fun d => Char.ofNat (48 + d))).length = decVal (natRepr depth) := by
    rw [List.length_map, decVal_natRepr, hlen]
  rw [hts, string_to_coord_decomp (natRepr depth) _ true (natRepr_ne_nil depth)
    (natRepr_digits depth) h3 hlen2]
  have hmap : (path.map (fun d => Char.ofNat (48 + d))).map (fun c => c.toNat - 48) = path := by
    rw [List.map_map]
    have : ∀ d ∈ path, ((fun c => Char.toNat c - 48) ∘ fun d => Char.ofNat (48 + d)) d = d := by
      intro d hd
      have h9 : d < 10 := by have := hdom d hd; omega
      simp [Function.comp, toNat_ofNat_add h9]
    rw [List.map_congr_left this, List.map_id']
  rw [decVal_natRepr, hmap]
  unfold finishDomain pyAddressedFractalCoordinate
  rw [if_pos rfl, if_pos (List.all_eq_true.mpr (fun d hd => by simpa using hdom d hd)),
    if_pos hlen]

/-- Witness for C4 at the concrete coordinate of depth 3, path (0,3,1). -/
theorem c4_from_string_to_string_round_trip_witness :
    string_to_coord (coord_to_string ⟨3, [0, 3, 1]⟩) true = .ok ⟨3, [0, 3, 1]⟩ :=
  c4_from_string_to_string_round_trip 3 [0, 3, 1] (by decide) (by decide)

lemma finishDomain_true_ne_domainError (d : ℕ) (p : List ℕ) :
    finishDomain d p true ≠ .domainError := by
  unfold finishDomain
  rw [if_pos rfl]
  cases h : pyAddressedFractalCoordinate d p <;> simp

lemma string_to_coord_true_ne_domainError (s : List Char) :
    string_to_coord s true ≠ .domainError := by
  unfold string_to_coord
  split
  · split
    · decide
    · split
      · decide
      · split
        · split
          · exact finishDomain_true_ne_domainError 0 []
          · decide
        · split
          · decide
          · split
            · exact finishDomain_true_ne_domainError _ _
            · decide
  · decide

/-- C7 (amended): each of the enumerated grammar deviations (missing `d`
marker, missing `p` marker, unparsable depth, negative depth, empty digit
block with positive depth, digit count different from the depth) yields the
none result; a grammatically well-formed string with a digit outside
{0,1,2} yields the explicit domain error when `allow_void` is false; but
when `allow_void` is true a well-formed string with a digit outside
{0,1,2,3} yields the none result (the constructor error is caught), and the
domain error can only ever arise with `allow_void` false. -/
theorem c7_malformed_vs_domain_error (s : List Char) (av : Bool) :
    (s.head? ≠ some 'd' → string_to_coord s av = .malformed)
    ∧ (s.contains 'p' = false → string_to_coord s av = .malformed)
    ∧ (pyParseInt (depthStrOf s) = none → string_to_coord s av = .malformed)
    ∧ (∀ k : ℤ, pyParseInt (depthStrOf s) = some k → k < 0 →
        string_to_coord s av = .malformed)
    ∧ (∀ k : ℤ, pyParseInt (depthStrOf s) = some k → 0 < k → splitPart1 s = [] →
        string_to_coord s av = .malformed)
    ∧ (∀ (k : ℤ) (ds : List ℕ), pyParseInt (depthStrOf s) = some k →
        pathDigitVals s = some ds → (ds.length : ℤ) ≠ k →
        string_to_coord s av = .malformed)
    ∧ (SpecGrammar s → av = false → ∀ vals, pathDigitVals s = some vals →
        (∃ x ∈ vals, 2 < x) → string_to_coord s av = .domainError)
    ∧ (SpecGrammar s → av = true → ∀ vals, pathDigitVals s = some vals →
        (∃ x ∈ vals, 3 < x) → string_to_coord s av = .malformed)
    ∧ (string_to_coord s av = .domainError → av = false) := by
  refine ⟨?_, ?_, ?_, ?_, ?_, ?_, ?_, ?_, ?_⟩
  · intro h
    unfold string_to_coord
    rw [if_neg (fun hc => h hc.1)]
  · intro h
    unfold string_to_coord
    rw [if_neg (fun hc => by rw [hc.2] at h; exact absurd h (by decide))]
  · intro h
    unfold string_to_coord
    split
    · rw [h]
    · rfl
  · intro k hk hneg
    unfold string_to_coord
    split
    · rw [hk]
      dsimp only
      rw [if_pos hneg]
    · rfl
  · intro k hk h0 hemp
    unfold string_to_coord
    split
    · rw [hk]
      dsimp only
      rw [if_neg (by omega), hemp]
      simp only [List.isEmpty_nil, if_pos]
      rw [if_neg (by omega)]
    · rfl
  · intro k ds hk hds hne
    unfold pathDigitVals at hds
    unfold string_to_coord
    split
    · rw [hk]
      dsimp only
      by_cases hneg : k < 0
      · rw [if_pos hneg]
      · rw [if_neg hneg]
        by_cases hemp : (splitPart1 s).isEmpty = true
        · have hnil : splitPart1 s = [] := by
            cases h : splitPart1 s with
            | nil => rfl
            | cons a l => rw [h] at hemp; simp at hemp
          have hdsnil : ds = [] := by
            rw [hnil, List.mapM_nil] at hds
            exact (Option.some.inj hds).symm
          rw [if_pos hemp, if_neg (by subst hdsnil; simp at hne; omega)]
        · rw [if_neg hemp, hds]
          dsimp only
          rw [if_neg hne]
    · rfl
  · rintro ⟨ds, ps, h1, h2, hpsd, hplen, rfl⟩ hav vals hvals hex
    subst hav
    have hpv : pathDigitVals ('d' :: (ds ++ 'p' :: ps)) =
        some (ps.map (fun c => c.toNat - 48)) := by
      unfold pathDigitVals
      rw [splitPart1_decomp ds ps h2 hpsd, mapM_charToDigit_of_digits ps hpsd]
    have hveq : vals = ps.map (fun c => c.toNat - 48) :=
      (Option.some.inj (hpv ▸ hvals)).symm
    subst hveq
    rw [string_to_coord_decomp ds ps false h1 h2 hpsd hplen]
    unfold finishDomain
    rw [if_neg (by decide)]
    rw [if_neg (fun hall => by
      rcases hex with ⟨x, hx, hgt⟩
      have := List.all_eq_true.mp hall x hx
      simp at this
      omega)]
  · rintro ⟨ds, ps, h1, h2, hpsd, hplen, rfl⟩ hav vals hvals hex
    subst hav
    have hpv : pathDigitVals ('d' :: (ds ++ 'p' :: ps)) =
        some (ps.map (fun c => c.toNat - 48)) := by
      unfold pathDigitVals
      rw [splitPart1_decomp ds ps h2 hpsd, mapM_charToDigit_of_digits ps hpsd]
    have hveq : vals = ps.map (fun c => c.toNat - 48) :=
      (Option.some.inj (hpv ▸ hvals)).symm
    subst hveq
    rw [string_to_coord_decomp ds ps true h1 h2 hpsd hplen]
    unfold finishDomain
    rw [if_pos rfl]
    have herr : pyAddressedFractalCoordinate (decVal ds) (ps.map (fun c => c.toNat - 48)) =
        .error .invalidElement := by
      unfold pyAddressedFractalCoordinate
      rw [if_neg (fun hall => by
        rcases hex with ⟨x, hx, hgt⟩
        have := List.all_eq_true.mp hall x hx
        simp at this
        omega)]
    rw [herr]
  · intro h
    cases av with
    | false => rfl
    | true => exact absurd h (string_to_coord_true_ne_domainError s)

/-- Counterexample to C7 as stated: the well-formed string `"d1p4"` carries
the out-of-domain digit 4, yet decoding with `allow_void = true` yields the
none result instead of the claimed explicit domain error. -/
theorem c7_malformed_vs_domain_error_counterexample :
    SpecGrammar ("d1p4".toList) ∧ pathDigitVals ("d1p4".toList) = some [4] ∧
      string_to_coord ("d1p4".toList) true = .malformed :=
  ⟨⟨['1'], ['4'], by decide, by decide, by decide, by decide, by decide⟩, by decide, by decide⟩

/-- Witness for C7: the well-formed string `"d1p3"` decoded in strict mode
produces the explicit domain error. -/
theorem c7_malformed_vs_domain_error_witness :
    string_to_coord ("d1p3".toList) false = .domainError := by
  refine (c7_malformed_vs_domain_error ("d1p3".toList) false).2.2.2.2.2.2.1
    ⟨['1'], ['3'], by decide, by decide, by decide, by decide, by decide⟩ rfl [3] (by decide) ?_
  exact ⟨3, by decide, by decide⟩

end Popi
